import Mathlib

/-
  Verification development for the xml2ddl schema-inference tool
  (src/xml2ddl.py).  The Python source is embedded shallowly:

  * the five SQL data types ("BIT" < "INT" < "FLOAT" < "NVARCHAR" < "NTEXT")
    become the inductive `DataType`;
  * `get_data_type` (lines 486-512) is split into `classify` (the regex
    classification of a literal, lines 487-498) and `mergeDT` (the widening
    chain on the previous type, lines 500-512); the Python `and`/`or`
    precedence of the original conditions is preserved literally;
  * `Table` and `Database` (with their dict fields as association lists in
    insertion order) carry `update_attribute`, `update_value`,
    `update_relations`, `set_key`, `flush`, `is_subset`;
  * exceptions become `Except XTDErr`;
  * the relation-report traversal `print_tablerel` / `print_xmlrel`
    (lines 204-365) is embedded with an explicit fuel parameter, mutable
    Python state (`route`, the `printed` flag, the printed lines) threaded
    as `St`.
-/

namespace X2D

/-- The five data types of the tool, in lattice order of the spec. -/
inductive DataType where
  | BIT | INT | FLOAT | NVARCHAR | NTEXT
deriving DecidableEq, Repr, Fintype

/-- Position of a data type in the widening order BIT < INT < FLOAT < NVARCHAR < NTEXT. -/
def DataType.rank : DataType → Nat
  | .BIT => 0
  | .INT => 1
  | .FLOAT => 2
  | .NVARCHAR => 3
  | .NTEXT => 4

/-- The string the Python code uses for each data type. -/
def DataType.render : DataType → String
  | .BIT => "BIT"
  | .INT => "INT"
  | .FLOAT => "FLOAT"
  | .NVARCHAR => "NVARCHAR"
  | .NTEXT => "NTEXT"

/-- Python `$` in an anchored `^...$` pattern also matches just before one
newline at the very end of the string; all four patterns in `get_data_type`
are fully anchored, so matching them against `data` is matching the plain
pattern against `data` with at most one trailing newline removed. -/
def stripNl (s : String) : List Char :=
  match s.data.reverse with
  | '\n' :: rest => rest.reverse
  | _ => s.data

/-- Pattern `(^1$)|(^0$)|(^True$)|(^False$)` (line 489). -/
def isBitLit (s : String) : Bool :=
  let cs := stripNl s
  cs = ['1'] || cs = ['0'] || cs = ['T', 'r', 'u', 'e'] || cs = ['F', 'a', 'l', 's', 'e']

/-- Pattern `^[0-9]+$` (line 491): one or more ASCII digits. -/
def isIntLit (s : String) : Bool :=
  let cs := stripNl s
  !cs.isEmpty && cs.all Char.isDigit

/-- The `\d*\.?\d+` core of the float pattern: digits, optionally a dot
followed by at least one digit; with no dot at least one digit. -/
def floatMantissa (cs : List Char) : Bool :=
  let ds := cs.takeWhile Char.isDigit
  match cs.dropWhile Char.isDigit with
  | [] => !ds.isEmpty
  | '.' :: tail => !tail.isEmpty && tail.all Char.isDigit
  | _ => false

/-- `[-+]?\d+`: the exponent digits with an optional sign. -/
def signedDigits (cs : List Char) : Bool :=
  let cs' := match cs with
    | c :: rest => if c = '+' || c = '-' then rest else cs
    | [] => []
  !cs'.isEmpty && cs'.all Char.isDigit

/-- Pattern `^[-+]?\d*\.?\d+((e|E)[-+]?\d+)?$` (line 493).  (Python `\d`
matches Unicode digits; ASCII digits are used here, which agrees on every
input the claims touch.) -/
def isFloatLit (s : String) : Bool :=
  let cs := stripNl s
  let cs' := match cs with
    | c :: rest => if c = '+' || c = '-' then rest else cs
    | [] => []
  let mant := cs'.takeWhile (fun c => c ≠ 'e' && c ≠ 'E')
  match cs'.dropWhile (fun c => c ≠ 'e' && c ≠ 'E') with
  | [] => floatMantissa mant
  | _ :: rest => floatMantissa mant && signedDigits rest

/-- Lines 487-498 of `get_data_type`: the data type a single literal is
classified as (`indata_type`).  `value = true` is the text-content context
(third argument `value` of the Python function), `value = false` the
attribute context. -/
def classify (data : String) (value : Bool) : DataType :=
  if data = "" then .BIT
  else if isBitLit data then .BIT
  else if isIntLit data then .INT
  else if isFloatLit data then .FLOAT
  else if !value then .NVARCHAR
  else .NTEXT

/-- Lines 500-512 of `get_data_type`: combine the previous type with the
classified type of the new literal.  Each condition keeps the Python
`and`/`or` precedence exactly (`a and b or c` is `(a ∧ b) ∨ c`). -/
def mergeDT (data_type indata_type : DataType) : DataType :=
  if data_type = .BIT then indata_type
  else if (data_type = .INT ∧ indata_type = .BIT) ∨ indata_type = .INT then data_type
  else if (data_type = .FLOAT ∧ indata_type = .BIT) ∨ indata_type = .INT ∨ indata_type = .FLOAT then
    data_type
  else if data_type = .NVARCHAR ∧ indata_type ≠ .NTEXT then data_type
  else if data_type = .NTEXT then data_type
  else indata_type

/-- `get_data_type(data, data_type, value)` (lines 486-512). -/
def get_data_type (data : String) (data_type : DataType) (value : Bool) :
    DataType :=
  mergeDT data_type (classify data value)

/-- `data_type_usable(data1, data2)` (lines 518-554): can `data2` be stored
in `data1`?  Either argument may be `none` (Python `None`, an unset value
field); `none` matches none of the five string comparisons, so the chain
falls through to the final `return 1`. -/
def data_type_usable (data1 data2 : Option DataType) : Bool :=
  if data1 = some .BIT then
    if data2 = some .BIT then true else false
  else if data1 = some .INT then
    if data2 = some .BIT then true
    else if data2 = some .INT then true
    else false
  else if data1 = some .FLOAT then
    if data2 = some .BIT then true
    else if data2 = some .INT then true
    else if data2 = some .FLOAT then true
    else false
  else if data1 = some .NVARCHAR then
    if data2 = some .BIT then true
    else if data2 = some .INT then true
    else if data2 = some .FLOAT then true
    else if data2 = some .NVARCHAR then true
    else false
  else if data1 = some .NTEXT then true
  else true

/-- The exceptions the embedded operations can raise: `XTDNameError`
(naming collision, lines 128/137/152/158/461/469) and the `KeyError` a
Python dict lookup of a missing key would raise inside `flush` (possible
only for databases never produced by the tree walk). -/
inductive XTDErr where
  | nameError | keyError
deriving DecidableEq, Repr

/-- Association-list read with a default: Python `dict.get(k, default)`. -/
def alistGet {α : Type} (l : List (String × α)) (k : String) (dflt : α) : α :=
  match l.find? (fun p => p.1 == k) with
  | some p => p.2
  | none => dflt

/-- Association-list write: Python `d[k] = v` (replace the entry in place,
else append; insertion order preserved). -/
def alistSet {α : Type} : List (String × α) → String → α → List (String × α)
  | [], k, v => [(k, v)]
  | p :: ps, k, v => if p.1 == k then (k, v) :: ps else p :: alistSet ps k v

/-- `Table` (lines 392-479): one entity.  The dict fields become
association lists in insertion order; `keys` holds the foreign-key column
names (every stored value is the constant string "INT", line 471, so only
the names are kept); the unused `__refs` field is omitted. -/
structure Table where
  name : String
  columns : List (String × DataType)
  relations : List (String × Nat)
  keys : List String
  value : Option DataType
deriving DecidableEq, Repr

/-- `Table.__init__` (lines 396-402). -/
def Table.init (name : String) : Table :=
  { name := name, columns := [], relations := [], keys := [], value := none }

/-- `Table.update_value` (lines 477-479).  Note the source reads the
previous type from `self.__columns.get("value", "BIT")`, not from
`self.__value`; this is kept verbatim. -/
def Table.update_value (t : Table) (data : String) : Table :=
  { t with value := some (get_data_type data (alistGet t.columns "value" .BIT) true) }

/-- `Table.update_attribute` (lines 456-464). -/
def Table.update_attribute (t : Table) (column data : String) : Except XTDErr Table :=
  if column = "value" then
    .ok (t.update_value data)
  else if column = "prk_" ++ t.name ++ "_id" then
    .error .nameError
  else
    .ok { t with
          columns := alistSet t.columns column
            (get_data_type data (alistGet t.columns column .BIT) false) }

/-- `Table.set_key` (lines 466-471). -/
def Table.set_key (t : Table) (ref : String) : Except XTDErr Table :=
  let fkname := ref ++ "_id"
  if fkname ∈ t.columns.map Prod.fst then
    .error .nameError
  else
    .ok { t with keys := if fkname ∈ t.keys then t.keys else t.keys ++ [fkname] }

/-- `Table.update_relations` (lines 444-446): keep the running maximum of
each child count. -/
def Table.update_relations (t : Table) (relations : List (String × Nat)) : Table :=
  { t with relations :=
      (relations.foldl (fun acc rc => alistSet acc rc.1 (max (alistGet acc rc.1 0) rc.2))
        t.relations) }

/-- `Database` (lines 37-388).  `__entries` (a dict name → Table) becomes
the list of tables in insertion order, looked up by their `name` field;
`__relations` (dict name → set of names) becomes an association list whose
value lists carry the iteration order of the Python set. -/
structure Database where
  etc : Int
  duplicity : Bool
  no_columns : Bool
  entries : List Table
  relations : List (String × List String)
deriving DecidableEq, Repr

/-- `Database.__init__` (lines 43-48). -/
def Database.init (etc : Int) (duplicity : Bool) (no_columns : Bool) :
    Database :=
  { etc := etc, duplicity := duplicity, no_columns := no_columns, entries := [], relations := [] }

/-- Dict lookup `self.__entries[name]` / `name in self.__entries`. -/
def entLookup (entries : List Table) (name : String) : Option Table :=
  entries.find? (fun t => t.name == name)

/-- Dict write `self.__entries[t.name] = t`: replace the first table with
the same name, else append. -/
def entPut : List Table → Table → List Table
  | [], t => [t]
  | x :: xs, t => if x.name == t.name then t :: xs else x :: entPut xs t

/-- Read of `self.__relations[k]` (set of related names, as a list in
iteration order).  Reachable states always contain the key. -/
def rlookup (rels : List (String × List String)) (k : String) : List String :=
  match rels.find? (fun p => p.1 == k) with
  | some p => p.2
  | none => []

/-- `self.__relations[a].add(b)`: append `b` to the set at key `a` if absent;
`none` models the `KeyError` on a missing key `a`. -/
def radd : List (String × List String) → String → String → Option (List (String × List String))
  | [], _, _ => none
  | p :: ps, a, b =>
      if p.1 == a then some ((p.1, if b ∈ p.2 then p.2 else p.2 ++ [b]) :: ps)
      else (radd ps a b).map (p :: ·)

/-- `Database.update_attribute` (lines 108-113): skipped entirely when
`no_columns` is set, else the (lazily created) table is updated. -/
def Database.update_attribute (db : Database) (name attrName data : String) :
    Except XTDErr Database :=
  if db.no_columns then .ok db
  else
    match ((entLookup db.entries name).getD (Table.init name)).update_attribute attrName data with
    | .error e => .error e
    | .ok t' => .ok { db with entries := entPut db.entries t' }

/-- `Database.update_value` (lines 64-68). -/
def Database.update_value (db : Database) (name data : String) : Database :=
  { db with entries :=
      (entPut db.entries
        (((entLookup db.entries name).getD (Table.init name)).update_value data)) }

/-- `Database.update_relations` (lines 54-58). -/
def Database.update_relations (db : Database) (name : String) (relations : List (String × Nat)) :
    Database :=
  { db with entries :=
      (entPut db.entries
        (((entLookup db.entries name).getD (Table.init name)).update_relations relations)) }

/-- One step of `Database.flush` (lines 124-161): process one recorded
relation `rc = (child tag, count)` of the table named `tn`, on the state
`st = (entries, relations)`.  The table is looked up freshly (Python holds
a live reference to the mutated object).  In the max-columns branch the
source reads `self.__entries[name].columns()` (line 136) before the
existence check on line 141, so a missing child entry is a `KeyError`. -/
def flushRel (dup : Bool) (etc : Int) (tn : String)
    (st : List Table × List (String × List String)) (rc : String × Nat) :
    Except XTDErr (List Table × List (String × List String)) :=
  match entLookup st.1 tn with
  | none => .error .keyError
  | some table =>
    if dup then
      if rc.1 ∈ table.columns.map Prod.fst then .error .nameError
      else
        match table.set_key rc.1 with
        | .error e => .error e
        | .ok t' =>
          match radd st.2 tn rc.1 with
          | none => .error .keyError
          | some rels' => .ok (entPut st.1 t', rels')
    else if etc ≠ -1 ∧ (rc.2 : Int) > etc then
      match entLookup st.1 rc.1 with
      | none => .error .keyError
      | some child =>
        if rc.1 ∈ child.columns.map Prod.fst then .error .nameError
        else
          match child.set_key tn with
          | .error e => .error e
          | .ok c' =>
            match radd st.2 rc.1 tn with
            | none => .error .keyError
            | some rels' => .ok (entPut st.1 c', rels')
    else
      if rc.2 = 1 then
        if rc.1 ∈ table.columns.map Prod.fst then .error .nameError
        else
          match table.set_key rc.1 with
          | .error e => .error e
          | .ok t' =>
            match radd st.2 tn rc.1 with
            | none => .error .keyError
            | some rels' => .ok (entPut st.1 t', rels')
      else
        match (List.range rc.2).foldlM (fun st2 num =>
            match entLookup st2.1 tn with
            | none => Except.error XTDErr.keyError
            | some t =>
              if rc.1 ++ toString (num + 1) ∈ t.columns.map Prod.fst then
                Except.error XTDErr.nameError
              else
                match t.set_key (rc.1 ++ toString (num + 1)) with
                | .error e => Except.error e
                | .ok t' => Except.ok (entPut st2.1 t', st2.2)) st with
        | .error e => .error e
        | .ok st3 =>
          match radd st3.2 tn rc.1 with
          | none => .error .keyError
          | some rels' => .ok (st3.1, rels')

/-- All relations of the table named `tn` processed by `flush`
(the body of the loop at lines 124-161 for one table). -/
def flushTable (dup : Bool) (etc : Int)
    (st : List Table × List (String × List String)) (tn : String) :
    Except XTDErr (List Table × List (String × List String)) :=
  match entLookup st.1 tn with
  | none => .error .keyError
  | some table => table.relations.foldlM (flushRel dup etc tn) st

/-- `Database.flush` (lines 118-161): reset the relation graph to one empty
set per entry, then process every recorded relation of every table in
insertion order. -/
def Database.flush (db : Database) : Except XTDErr Database :=
  let rels0 : List (String × List String) := db.entries.map (fun t => (t.name, []))
  let names := db.entries.map Table.name
  match names.foldlM (flushTable db.duplicity db.etc) (db.entries, rels0) with
  | .error e => .error e
  | .ok st => .ok { db with entries := st.1, relations := st.2 }

/-- `Database.is_subset` (lines 370-388): `db.is_subset db2` is 1 iff every
entity of `db2` exists in `db` with every column present and usable and a
usable value field. -/
def Database.is_subset (db db2 : Database) : Bool :=
  db2.entries.all (fun table =>
    match entLookup db.entries table.name with
    | none => false
    | some t1 =>
      table.columns.all (fun cd =>
        match t1.columns.find? (fun p => p.1 == cd.1) with
        | none => false
        | some p => data_type_usable (some p.2) (some cd.2)) &&
      data_type_usable t1.value table.value)

/-- One `CREATE TABLE` block of `print_ddl` (lines 169-183). -/
def renderTable (t : Table) : String :=
  "CREATE TABLE " ++ t.name ++ "(" ++ "\n   prk_" ++ t.name ++ "_id" ++ " INT PRIMARY KEY"
  ++ (t.keys.foldl (fun a k => a ++ ",\n   " ++ k ++ " INT") "")
  ++ (t.columns.foldl (fun a c => a ++ ",\n   " ++ c.1 ++ " " ++ c.2.render) "")
  ++ (match t.value with | none => "" | some dt => ",\n   value " ++ dt.render)
  ++ "\n);\n\n"

/-- `Database.print_ddl` (lines 166-183): flush, then emit the DDL text. -/
def Database.print_ddl (db : Database) : Except XTDErr String :=
  match db.flush with
  | .error e => .error e
  | .ok db' => .ok (db'.entries.foldl (fun acc t => acc ++ renderTable t) "")

/-- One call the tree walker `xtd_database` (lines 561-579) makes into the
database: an attribute observation, a text-content observation, or the
per-instance child counts of one element instance. -/
inductive Obs where
  | attr (name attrName data : String)
  | val (name data : String)
  | rels (name : String) (info : List (String × Nat))

/-- Dispatch one walker call. -/
def runObs (db : Database) : Obs → Except XTDErr Database
  | .attr name a d => db.update_attribute name a d
  | .val name d => .ok (db.update_value name d)
  | .rels name info => .ok (db.update_relations name info)

/-- The whole tree walk as the sequence of database calls it makes. -/
def runWalk (db : Database) (l : List Obs) : Except XTDErr Database :=
  l.foldlM runObs db

/-- The DDL pipeline of `xtd` (lines 586-617, output branch without `-g`):
build the database from the walk, then flush and print.  An error anywhere
aborts the run with no output. -/
def xtdDDL (etc : Int) (dup no_cols : Bool) (obs : List Obs) : Except XTDErr String :=
  match runWalk (Database.init etc dup no_cols) obs with
  | .error e => .error e
  | .ok db => db.print_ddl

/-- The mutable state of `print_tablerel` / `print_xmlrel` for one origin
table: the shared `route` list (passed by reference in Python and only ever
appended to), the `printed` flag (threaded through return values), and the
relation lines written so far, each a pair (relation_type, target table) as
passed to `print_relation` (lines 190-194). -/
structure St where
  route : List String
  printed : Bool
  out : List (String × String)
deriving DecidableEq, Repr

/-- Emit the single 1:1 relation to the origin and mark it printed
(lines 234-237 and the three analogous sites). -/
def push11 (orig : String) (s : St) : St :=
  { route := s.route ++ [orig], printed := true, out := s.out ++ [("1:1", orig)] }

/-- Append `tname_to` to `route` and write the lines for the edge just
classified (route append at lines 230/266/295; `lines` is empty in the one
suppressed case of the `rel == 1` branch). -/
def workState (lines : List (String × String)) (tto : String) (s : St) : St :=
  { route := s.route ++ [tto], printed := s.printed, out := s.out ++ lines }

/-- The `for table in self.__relations[tname_to]` loops ("check my foreign
keys", lines 233-240/270-277/298-306): `rec t` is the recursive
`print_tablerel` call on target `t` at the recursion depth and relation
mode of the enclosing branch. -/
def fkFold (orig : String) (rec : String → St → Option St) :
    List String → St → Option St
  | [], s => some s
  | t :: ts, s =>
    if t = orig ∧ s.printed = false then fkFold orig rec ts (push11 orig s)
    else if t ∉ s.route then
      match rec t s with
      | none => none
      | some s' => fkFold orig rec ts s'
    else fkFold orig rec ts s

/-- The `for table in self.__entries.keys()` loops ("check for tables which
are referencing me", lines 243-253/280-290/309-318). -/
def refFold (rels : List (String × List String)) (orig tto : String)
    (rec : String → St → Option St) : List String → St → Option St
  | [], s => some s
  | t :: ts, s =>
    if tto ∈ rlookup rels t then
      let s1 := if t = orig ∧ s.printed = false then push11 orig s else s
      if t ≠ orig ∧ t ∉ s1.route then
        match rec t s1 with
        | none => none
        | some s2 => refFold rels orig tto rec ts s2
      else refFold rels orig tto rec ts s1
    else refFold rels orig tto rec ts s

/-- The common tail of the three work branches of `print_tablerel`: write
`lines`, append `tname_to` to the route, run the foreign-key loop with
recursion mode `fkRel`, then the referencing-tables loop with recursion
mode `refRel`. -/
def workTail (rels : List (String × List String)) (names : List String)
    (orig tto : String) (lines : List (String × String))
    (recFK recRef : String → St → Option St) (s : St) : Option St :=
  match fkFold orig recFK (rlookup rels tto) (workState lines tto s) with
  | none => none
  | some s2 => refFold rels orig tto recRef names s2

/-- `Database.print_tablerel` (lines 204-321) with an explicit fuel
parameter bounding the recursion depth; `none` means the fuel ran out (the
termination theorem shows enough fuel always exists).  `rel` is 0 for N:1
inspection, 1 for 1:N, 2 for N:M, exactly as in the source; any other value
falls through all three branches and just returns `printed`. -/
def print_tablerel (db : Database) : Nat → String → String → String → Nat → St → Option St
  | 0, _, _, _, _, _ => none
  | Nat.succ f, orig, tfrom, tto, rel, s =>
    if rel = 0 then
      if tto ∈ rlookup db.relations tfrom ∧ tto ∉ s.route then
        workTail db.relations (db.entries.map Table.name) orig tto
          [(if tfrom ∈ rlookup db.relations tto then "N:M" else "N:1", tto)]
          (fun t s' => print_tablerel db f orig tto t 0 s')
          (fun t s' => print_tablerel db f orig tto t 2 s') s
      else some s
    else if rel = 1 then
      if tfrom ∈ rlookup db.relations tto ∧ tto ∉ s.route then
        workTail db.relations (db.entries.map Table.name) orig tto
          (if tto ∈ rlookup db.relations tfrom then
            (if tfrom ≠ orig then [("N:M", tto)] else [])
          else [("1:N", tto)])
          (fun t s' => print_tablerel db f orig tto t 2 s')
          (fun t s' => print_tablerel db f orig tto t 1 s') s
      else some s
    else if rel = 2 then
      if tto ∉ s.route ∧ tto ≠ orig then
        workTail db.relations (db.entries.map Table.name) orig tto [("N:M", tto)]
          (fun t s' => print_tablerel db f orig tto t 2 s')
          (fun t s' => print_tablerel db f orig tto t 2 s') s
      else some s
    else some s

/-- First loop of one `<table>` block of `print_xmlrel` (lines 349-352):
inspect every other table as a possible N:1 relation. -/
def xmlrelA (db : Database) (fuel : Nat) (origin : String) :
    List String → St → Option St
  | [], s => some s
  | t2 :: ts, s =>
    if t2 ≠ origin then
      match print_tablerel db fuel origin origin t2 0 s with
      | none => none
      | some s' => xmlrelA db fuel origin ts s'
    else xmlrelA db fuel origin ts s

/-- Second loop of one `<table>` block of `print_xmlrel` (lines 354-362):
inspect every table holding a foreign key to the origin. -/
def xmlrelB (db : Database) (fuel : Nat) (origin : String) :
    List String → St → Option St
  | [], s => some s
  | t2 :: ts, s =>
    if origin ∈ rlookup db.relations t2 then
      if origin = t2 ∧ s.printed = false then xmlrelB db fuel origin ts (push11 origin s)
      else
        match print_tablerel db fuel origin origin t2 1 s with
        | none => none
        | some s' => xmlrelB db fuel origin ts s'
    else xmlrelB db fuel origin ts s

/-- The traversal state after the `<table name="origin">` block of
`print_xmlrel` (lines 345-364): both loops run from the fresh
`printed = 0`, `route = []` of lines 347-348. -/
def xmlrelTable (db : Database) (fuel : Nat) (origin : String) : Option St :=
  match xmlrelA db fuel origin (db.entries.map Table.name) ⟨[], false, []⟩ with
  | none => none
  | some s => xmlrelB db fuel origin (db.entries.map Table.name) s

/-- The relation lines printed inside one origin's `<table>` block. -/
def originReport (db : Database) (fuel : Nat) (origin : String) :
    Option (List (String × String)) :=
  (xmlrelTable db fuel origin).map St.out

/-- Every table name the traversal can ever append to `route`: the entry
names plus every name occurring in the relation graph. -/
def allNames (db : Database) : List String :=
  db.entries.map Table.name ++ db.relations.map Prod.fst
    ++ (db.relations.map Prod.snd).flatten

/-- Fuel that the termination theorem proves sufficient for every origin. -/
def fuelBound (db : Database) : Nat :=
  (allNames db).toFinset.card + 1

/-- Numeric value of the `printed` flag (Python uses the ints 0 and 1). -/
def b2n : Bool → Nat
  | false => 0
  | true => 1

/-- Number of 1:1 relation lines in an output list. -/
def cnt11 (out : List (String × String)) : Nat :=
  (out.filter (fun p => p.1 == "1:1")).length

/-- What one traversal step (or any composition of steps) does to the
state: `printed` is monotone, `route` only grows, output lines are only
appended, the number of 1:1 lines grows at most as much as the `printed`
flag, and every new 1:1 line names the origin. -/
def Step (orig : String) (s s' : St) : Prop :=
  (s.printed = true → s'.printed = true) ∧
  (∀ x ∈ s.route, x ∈ s'.route) ∧
  (∃ add, s'.out = s.out ++ add) ∧
  (cnt11 s'.out + b2n s.printed ≤ cnt11 s.out + b2n s'.printed) ∧
  (∀ p ∈ s'.out, p ∈ s.out ∨ (p.1 = "1:1" → p.2 = orig))

/-- State invariant of the traversal for one origin: the origin enters the
route only together with the `printed` flag, every printed line's target is
on the route, no two lines name the same target, and the route never
repeats an entry. -/
def Inv (orig : String) (s : St) : Prop :=
  (s.printed = false → orig ∉ s.route) ∧
  (∀ p ∈ s.out, p.2 ∈ s.route) ∧
  (s.out.map Prod.snd).Nodup ∧
  s.route.Nodup

/-- Relational invariant threading `Step` together with preservation of
`Inv`. -/
def Good (orig : String) (s s' : St) : Prop :=
  Step orig s s' ∧ (Inv orig s → Inv orig s')

/-- The shape of the line lists the work branches push: empty or a single
non-1:1 line naming the appended target. -/
def LinesOk (tto : String) (lines : List (String × String)) : Prop :=
  lines = [] ∨ ∃ ty, ty ≠ "1:1" ∧ lines = [(ty, tto)]

/-- Number of appendable names not yet on the route: the decreasing measure
of the traversal. -/
def measureR (db : Database) (s : St) : Nat :=
  ((allNames db).toFinset \ s.route.toFinset).card

/-- The named entry has the foreign-key column `k`. -/
def hasKey (entries : List Table) (n k : String) : Prop :=
  ∃ t, entLookup entries n = some t ∧ k ∈ t.keys

/-- Flush steps only add foreign keys: every entry stays present with the
same name, columns, relations and value, and its key set only grows. -/
def EntMono (e e' : List Table) : Prop :=
  ∀ n t, entLookup e n = some t →
    ∃ t', entLookup e' n = some t' ∧ t'.name = t.name ∧ t'.columns = t.columns ∧
      t'.relations = t.relations ∧ t'.value = t.value ∧ ∀ k ∈ t.keys, k ∈ t'.keys

/-- Flush steps only add edges to the relation graph. -/
def EdgeMono (r r' : List (String × List String)) : Prop :=
  ∀ a b, b ∈ rlookup r a → b ∈ rlookup r' a

/-- Monotonicity of one flush step on the whole state. -/
def FM (st st' : List Table × List (String × List String)) : Prop :=
  EntMono st.1 st'.1 ∧ EdgeMono st.2 st'.2

/-- Extract the database of a successful flush (total helper for stating
concrete evaluations). -/
def exOkDb (x : Except XTDErr Database) (dflt : Database) : Database :=
  match x with
  | .ok d => d
  | .error _ => dflt

/-- Parent `p` records child `c` twice; duplicate-keys mode. -/
def c1db : Database :=
  ⟨-1, true, false, [⟨"p", [], [("c", 2)], [], none⟩, ⟨"c", [], [], [], none⟩], []⟩

/-- `c1db` after `flush`. -/
def c1post : Database := exOkDb c1db.flush c1db

/-- Origin `a` can return to itself along two paths: a→b→a and a→c→a. -/
def c6db : Database :=
  ⟨-1, true, false,
    [⟨"a", [], [("b", 1), ("c", 1)], [], none⟩, ⟨"b", [], [("a", 1)], [], none⟩,
      ⟨"c", [], [("a", 1)], [], none⟩], []⟩

/-- `c6db` after `flush`: relation graph a→{b,c}, b→a, c→a. -/
def c6post : Database := exOkDb c6db.flush c6db

/-- Mutual pair a↔b plus the detour a→c→b that visits `b` first. -/
def c7db : Database :=
  ⟨-1, true, false,
    [⟨"a", [], [("c", 1), ("b", 1)], [], none⟩, ⟨"c", [], [("b", 1)], [], none⟩,
      ⟨"b", [], [("a", 1)], [], none⟩], []⟩

/-- `c7db` after `flush`: relation graph a→{c,b}, c→b, b→a. -/
def c7post : Database := exOkDb c7db.flush c7db

lemma good_refl (orig : String) (s : St) : Good orig s s :=
  ⟨⟨fun h => h, fun _ hx => hx, ⟨[], by simp⟩, le_refl _, fun _ hp => Or.inl hp⟩, id⟩

lemma good_trans {orig : String} {s1 s2 s3 : St}
    (g12 : Good orig s1 s2) (g23 : Good orig s2 s3) : Good orig s1 s3 := by
  obtain ⟨⟨p12, r12, ⟨a12, o12⟩, c12, l12⟩, i12⟩ := g12
  obtain ⟨⟨p23, r23, ⟨a23, o23⟩, c23, l23⟩, i23⟩ := g23
  refine ⟨⟨fun h => p23 (p12 h), fun x hx => r23 x (r12 x hx),
    ⟨a12 ++ a23, by rw [o23, o12, List.append_assoc]⟩, by omega, ?_⟩,
    fun hi => i23 (i12 hi)⟩
  intro p hp
  rcases l23 p hp with h | h
  · exact l12 p h
  · exact Or.inr h

lemma cnt11_append (a b : List (String × String)) :
    cnt11 (a ++ b) = cnt11 a + cnt11 b := by
  simp [cnt11]

lemma good_push11 (orig : String) (s : St) (h : s.printed = false) :
    Good orig s (push11 orig s) := by
  constructor
  · refine ⟨fun _ => rfl, fun x hx => List.mem_append_left _ hx,
      ⟨[("1:1", orig)], rfl⟩, ?_, ?_⟩
    · simp [push11, cnt11_append, h, b2n, cnt11]
    · intro p hp
      rcases List.mem_append.mp hp with h1 | h1
      · exact Or.inl h1
      · simp only [List.mem_singleton] at h1
        subst h1
        exact Or.inr fun _ => rfl
  · rintro ⟨i1, i2, i3, i4⟩
    have horig : orig ∉ s.route := i1 h
    refine ⟨?_, ?_, ?_, ?_⟩
    · intro hp
      simp [push11] at hp
    · intro p hp
      rcases List.mem_append.mp hp with h1 | h1
      · exact List.mem_append_left _ (i2 p h1)
      · simp only [List.mem_singleton] at h1
        subst h1
        simp [push11]
    · have hdisj : ∀ x ∈ s.out.map Prod.snd, x ≠ orig := by
        intro x hx heq
        subst heq
        rcases List.mem_map.mp hx with ⟨p, hp, hps⟩
        exact horig (hps ▸ i2 p hp)
      simp only [push11, List.map_append, List.map_cons, List.map_nil]
      rw [List.nodup_append]
      exact ⟨i3, List.nodup_singleton _, fun x hx hx' => by
        simp only [List.mem_singleton] at hx'
        exact hdisj x hx hx'⟩
    · simp only [push11]
      rw [List.nodup_append]
      exact ⟨i4, List.nodup_singleton _, fun x hx hx' => by
        simp only [List.mem_singleton] at hx'
        exact horig (hx' ▸ hx)⟩

lemma cnt11_linesOk {tto : String} {lines : List (String × String)}
    (h : LinesOk tto lines) : cnt11 lines = 0 := by
  rcases h with h | ⟨ty, hty, h⟩ <;> subst h
  · simp [cnt11]
  · have hb : (ty == "1:1") = false := beq_eq_false_iff_ne.mpr hty
    simp [cnt11, hb]

lemma good_workState {orig tto : String} {s : St} {lines : List (String × String)}
    (hne : tto ∉ s.route) (hor : tto = orig → s.printed = true)
    (hl : LinesOk tto lines) : Good orig s (workState lines tto s) := by
  constructor
  · refine ⟨fun h => h, fun x hx => List.mem_append_left _ hx, ⟨lines, rfl⟩, ?_, ?_⟩
    · simp [workState, cnt11_append, cnt11_linesOk hl]
    · intro p hp
      rcases List.mem_append.mp hp with h1 | h1
      · exact Or.inl h1
      · rcases hl with h | ⟨ty, hty, h⟩ <;> subst h
        · simp at h1
        · simp only [List.mem_singleton] at h1
          subst h1
          exact Or.inr fun hc => absurd hc hty
  · rintro ⟨i1, i2, i3, i4⟩
    have htno : tto ≠ orig ∨ s.printed = true := by
      by_cases hc : tto = orig
      · exact Or.inr (hor hc)
      · exact Or.inl hc
    refine ⟨?_, ?_, ?_, ?_⟩
    · intro hp
      simp only [workState] at hp ⊢
      intro hmem
      rcases List.mem_append.mp hmem with h1 | h1
      · exact i1 hp h1
      · simp only [List.mem_singleton] at h1
        rcases htno with h2 | h2
        · exact h2 h1.symm
        · rw [hp] at h2
          cases h2
    · intro p hp
      rcases List.mem_append.mp hp with h1 | h1
      · exact List.mem_append_left _ (i2 p h1)
      · rcases hl with h | ⟨ty, hty, h⟩ <;> subst h
        · simp at h1
        · simp only [List.mem_singleton] at h1
          subst h1
          simp [workState]
    · rcases hl with h | ⟨ty, hty, h⟩ <;> subst h
      · simpa [workState] using i3
      · have hdisj : ∀ x ∈ s.out.map Prod.snd, x ≠ tto := by
          intro x hx heq
          subst heq
          rcases List.mem_map.mp hx with ⟨p, hp, hps⟩
          exact hne (hps ▸ i2 p hp)
        simp only [workState, List.map_append, List.map_cons, List.map_nil]
        rw [List.nodup_append]
        exact ⟨i3, List.nodup_singleton _, fun x hx hx' => by
          simp only [List.mem_singleton] at hx'
          exact hdisj x hx hx'⟩
    · simp only [workState]
      rw [List.nodup_append]
      exact ⟨i4, List.nodup_singleton _, fun x hx hx' => by
        simp only [List.mem_singleton] at hx'
        exact hne (hx' ▸ hx)⟩

lemma fkFold_good {orig : String} {rec : String → St → Option St}
    (hrec : ∀ t s s', (t = orig → s.printed = true) → rec t s = some s' → Good orig s s') :
    ∀ (ts : List String) (s s' : St), fkFold orig rec ts s = some s' → Good orig s s' := by
  intro ts
  induction ts with
  | nil =>
    intro s s' h
    simp only [fkFold, Option.some.injEq] at h
    subst h
    exact good_refl orig s
  | cons t ts ih =>
    intro s s' h
    simp only [fkFold] at h
    split at h
    · next h1 => exact good_trans (good_push11 orig s h1.2) (ih _ _ h)
    · next h1 =>
      split at h
      · next h2 =>
        cases hrec' : rec t s with
        | none => rw [hrec'] at h; cases h
        | some s1 =>
          rw [hrec'] at h
          refine good_trans (hrec t s s1 ?_ hrec') (ih _ _ h)
          intro heq
          cases hp : s.printed with
          | false => exact absurd ⟨heq, hp⟩ h1
          | true => rfl
      · next h2 => exact ih _ _ h

lemma refFold_good {rels : List (String × List String)} {orig tto : String}
    {rec : String → St → Option St}
    (hrec : ∀ t s s', t ≠ orig → rec t s = some s' → Good orig s s') :
    ∀ (ts : List String) (s s' : St), refFold rels orig tto rec ts s = some s' → Good orig s s' := by
  intro ts
  induction ts with
  | nil =>
    intro s s' h
    simp only [refFold, Option.some.injEq] at h
    subst h
    exact good_refl orig s
  | cons t ts ih =>
    intro s s' h
    simp only [refFold] at h
    split at h
    · next hmem =>
      by_cases hp : t = orig ∧ s.printed = false
      · rw [if_pos hp] at h
        have hneg : ¬(t ≠ orig ∧ t ∉ (push11 orig s).route) := fun hcc => hcc.1 hp.1
        rw [if_neg hneg] at h
        exact good_trans (good_push11 orig s hp.2) (ih _ _ h)
      · rw [if_neg hp] at h
        split at h
        · next hc2 =>
          cases hrec' : rec t s with
          | none => rw [hrec'] at h; cases h
          | some s2 =>
            rw [hrec'] at h
            exact good_trans (hrec t _ s2 hc2.1 hrec') (ih _ _ h)
        · next hc2 => exact ih _ _ h
    · next hmem => exact ih _ _ h

lemma workTail_good {rels : List (String × List String)} {names : List String}
    {orig tto : String} {lines : List (String × String)}
    {recFK recRef : String → St → Option St} {s s' : St}
    (hne : tto ∉ s.route) (hor : tto = orig → s.printed = true) (hl : LinesOk tto lines)
    (hFK : ∀ t s s', (t = orig → s.printed = true) → recFK t s = some s' → Good orig s s')
    (hRef : ∀ t s s', t ≠ orig → recRef t s = some s' → Good orig s s')
    (h : workTail rels names orig tto lines recFK recRef s = some s') : Good orig s s' := by
  simp only [workTail] at h
  cases hfk : fkFold orig recFK (rlookup rels tto) (workState lines tto s) with
  | none => rw [hfk] at h; cases h
  | some s2 =>
    rw [hfk] at h
    exact good_trans
      (good_trans (good_workState hne hor hl) (fkFold_good hFK _ _ _ hfk))
      (refFold_good hRef _ _ _ h)

lemma print_tablerel_good (db : Database) :
    ∀ (f : Nat) (orig tfrom tto : String) (rel : Nat) (s s' : St),
      (tto = orig → s.printed = true) →
      print_tablerel db f orig tfrom tto rel s = some s' → Good orig s s' := by
  intro f
  induction f with
  | zero =>
    intro orig tfrom tto rel s s' hor h
    simp [print_tablerel] at h
  | succ f ih =>
    intro orig tfrom tto rel s s' hor h
    simp only [print_tablerel] at h
    split at h
    · split at h
      · next hc =>
        refine workTail_good hc.2 hor (Or.inr ⟨_, ?_, rfl⟩)
          (fun t s1 s2 h1 h2 => ih orig tto t 0 s1 s2 h1 h2)
          (fun t s1 s2 h1 h2 => ih orig tto t 2 s1 s2 (fun he => absurd he h1) h2) h
        split <;> decide
      · rw [Option.some.injEq] at h
        subst h
        exact good_refl orig s
    · split at h
      · split at h
        · next hc =>
          refine workTail_good hc.2 hor ?_
            (fun t s1 s2 h1 h2 => ih orig tto t 2 s1 s2 h1 h2)
            (fun t s1 s2 h1 h2 => ih orig tto t 1 s1 s2 (fun he => absurd he h1) h2) h
          split
          · split
            · exact Or.inr ⟨"N:M", by decide, rfl⟩
            · exact Or.inl rfl
          · exact Or.inr ⟨"1:N", by decide, rfl⟩
        · rw [Option.some.injEq] at h
          subst h
          exact good_refl orig s
      · split at h
        · split at h
          · next hc =>
            exact workTail_good hc.1 hor (Or.inr ⟨"N:M", by decide, rfl⟩)
              (fun t s1 s2 h1 h2 => ih orig tto t 2 s1 s2 h1 h2)
              (fun t s1 s2 h1 h2 => ih orig tto t 2 s1 s2 (fun he => absurd he h1) h2) h
          · rw [Option.some.injEq] at h
            subst h
            exact good_refl orig s
        · rw [Option.some.injEq] at h
          subst h
          exact good_refl orig s

lemma xmlrelA_good (db : Database) (fuel : Nat) (origin : String) :
    ∀ (ts : List String) (s s' : St), xmlrelA db fuel origin ts s = some s' →
      Good origin s s' := by
  intro ts
  induction ts with
  | nil =>
    intro s s' h
    simp only [xmlrelA, Option.some.injEq] at h
    subst h
    exact good_refl origin s
  | cons t2 ts ih =>
    intro s s' h
    simp only [xmlrelA] at h
    split at h
    · next hne =>
      cases hp : print_tablerel db fuel origin origin t2 0 s with
      | none => rw [hp] at h; cases h
      | some s1 =>
        rw [hp] at h
        exact good_trans
          (print_tablerel_good db fuel origin origin t2 0 s s1 (fun he => absurd he hne) hp)
          (ih _ _ h)
    · exact ih _ _ h

lemma xmlrelB_good (db : Database) (fuel : Nat) (origin : String) :
    ∀ (ts : List String) (s s' : St), xmlrelB db fuel origin ts s = some s' →
      Good origin s s' := by
  intro ts
  induction ts with
  | nil =>
    intro s s' h
    simp only [xmlrelB, Option.some.injEq] at h
    subst h
    exact good_refl origin s
  | cons t2 ts ih =>
    intro s s' h
    simp only [xmlrelB] at h
    split at h
    · split at h
      · next hc => exact good_trans (good_push11 origin s hc.2) (ih _ _ h)
      · next hc =>
        cases hp : print_tablerel db fuel origin origin t2 1 s with
        | none => rw [hp] at h; cases h
        | some s1 =>
          rw [hp] at h
          refine good_trans (print_tablerel_good db fuel origin origin t2 1 s s1 ?_ hp) (ih _ _ h)
          intro heq
          cases hpr : s.printed with
          | false => exact absurd ⟨heq.symm, hpr⟩ hc
          | true => rfl
    · exact ih _ _ h

lemma inv_init (orig : String) : Inv orig ⟨[], false, []⟩ :=
  ⟨fun _ => List.not_mem_nil _, fun p hp => absurd hp (List.not_mem_nil p), by simp,
    List.nodup_nil⟩

lemma xmlrelTable_good (db : Database) (fuel : Nat) (origin : String) (st : St)
    (h : xmlrelTable db fuel origin = some st) :
    Good origin ⟨[], false, []⟩ st := by
  simp only [xmlrelTable] at h
  cases ha : xmlrelA db fuel origin (db.entries.map Table.name) ⟨[], false, []⟩ with
  | none => rw [ha] at h; cases h
  | some s1 =>
    rw [ha] at h
    exact good_trans (xmlrelA_good db fuel origin _ _ _ ha) (xmlrelB_good db fuel origin _ _ _ h)

lemma measure_mono {db : Database} {s s' : St} (h : ∀ x ∈ s.route, x ∈ s'.route) :
    measureR db s' ≤ measureR db s := by
  apply Finset.card_le_card
  apply Finset.sdiff_subset_sdiff (Finset.Subset.refl _)
  intro x hx
  rw [List.mem_toFinset] at hx ⊢
  exact h x hx

lemma measure_dec {db : Database} {s : St} {tto : String} (lines : List (String × String))
    (h1 : tto ∈ allNames db) (h2 : tto ∉ s.route) :
    measureR db (workState lines tto s) < measureR db s := by
  apply Finset.card_lt_card
  have hsub : (allNames db).toFinset \ (workState lines tto s).route.toFinset ⊆
      (allNames db).toFinset \ s.route.toFinset := by
    apply Finset.sdiff_subset_sdiff (Finset.Subset.refl _)
    intro x hx
    rw [List.mem_toFinset] at hx ⊢
    exact List.mem_append_left _ hx
  rw [Finset.ssubset_iff_of_subset hsub]
  refine ⟨tto, ?_, ?_⟩
  · rw [Finset.mem_sdiff, List.mem_toFinset, List.mem_toFinset]
    exact ⟨h1, h2⟩
  · rw [Finset.mem_sdiff, List.mem_toFinset, List.mem_toFinset]
    intro hc
    exact hc.2 (by simp [workState])

lemma measure_le_card (db : Database) (s : St) :
    measureR db s ≤ (allNames db).toFinset.card :=
  Finset.card_le_card (Finset.sdiff_subset)

lemma rlookup_sub_allNames (db : Database) (k : String) :
    ∀ x ∈ rlookup db.relations k, x ∈ allNames db := by
  intro x hx
  unfold rlookup at hx
  cases hfind : db.relations.find? (fun p => p.1 == k) with
  | none => rw [hfind] at hx; cases hx
  | some p =>
    rw [hfind] at hx
    have hp : p ∈ db.relations := List.mem_of_find?_eq_some hfind
    unfold allNames
    refine List.mem_append_right _ ?_
    rw [List.mem_flatten]
    exact ⟨p.2, List.mem_map_of_mem Prod.snd hp, hx⟩

lemma entryNames_sub_allNames (db : Database) :
    ∀ x ∈ db.entries.map Table.name, x ∈ allNames db := by
  intro x hx
  exact List.mem_append_left _ (List.mem_append_left _ hx)

lemma fkFold_term {db : Database} {f : Nat} {orig : String} {rec : String → St → Option St}
    (hrecT : ∀ t s, t ∈ allNames db → measureR db s < f → ∃ s', rec t s = some s')
    (hrecG : ∀ t s s', (t = orig → s.printed = true) → rec t s = some s' → Good orig s s') :
    ∀ (ts : List String) (s : St), (∀ t ∈ ts, t ∈ allNames db) → measureR db s < f →
      ∃ s', fkFold orig rec ts s = some s' := by
  intro ts
  induction ts with
  | nil => exact fun s _ _ => ⟨s, rfl⟩
  | cons t ts ih =>
    intro s hall hm
    simp only [fkFold]
    split
    · next hc =>
      refine ih _ (fun x hx => hall x (List.mem_cons_of_mem t hx)) ?_
      exact lt_of_le_of_lt (measure_mono (fun x hx => List.mem_append_left _ hx)) hm
    · next hc =>
      split
      · next hniroute =>
        obtain ⟨s1, hs1⟩ := hrecT t s (hall t (List.mem_cons_self t ts)) hm
        rw [hs1]
        have hor : t = orig → s.printed = true := by
          intro heq
          cases hp : s.printed with
          | false => exact absurd ⟨heq, hp⟩ hc
          | true => rfl
        have hg := hrecG t s s1 hor hs1
        exact ih _ (fun x hx => hall x (List.mem_cons_of_mem t hx))
          (lt_of_le_of_lt (measure_mono hg.1.2.1) hm)
      · exact ih _ (fun x hx => hall x (List.mem_cons_of_mem t hx)) hm

lemma refFold_term {db : Database} {f : Nat} {orig tto : String}
    {rec : String → St → Option St}
    (hrecT : ∀ t s, t ∈ allNames db → measureR db s < f → ∃ s', rec t s = some s')
    (hrecG : ∀ t s s', (t = orig → s.printed = true) → rec t s = some s' → Good orig s s') :
    ∀ (ts : List String) (s : St), (∀ t ∈ ts, t ∈ allNames db) → measureR db s < f →
      ∃ s', refFold db.relations orig tto rec ts s = some s' := by
  intro ts
  induction ts with
  | nil => exact fun s _ _ => ⟨s, rfl⟩
  | cons t ts ih =>
    intro s hall hm
    simp only [refFold]
    split
    · next hmem =>
      by_cases hp : t = orig ∧ s.printed = false
      · rw [if_pos hp]
        have hneg : ¬(t ≠ orig ∧ t ∉ (push11 orig s).route) := fun hcc => hcc.1 hp.1
        rw [if_neg hneg]
        refine ih _ (fun x hx => hall x (List.mem_cons_of_mem t hx)) ?_
        exact lt_of_le_of_lt (measure_mono (fun x hx => List.mem_append_left _ hx)) hm
      · rw [if_neg hp]
        split
        · next hc2 =>
          obtain ⟨s1, hs1⟩ := hrecT t s (hall t (List.mem_cons_self t ts)) hm
          rw [hs1]
          have hg := hrecG t s s1 (fun he => absurd he hc2.1) hs1
          exact ih _ (fun x hx => hall x (List.mem_cons_of_mem t hx))
            (lt_of_le_of_lt (measure_mono hg.1.2.1) hm)
        · exact ih _ (fun x hx => hall x (List.mem_cons_of_mem t hx)) hm
    · next hmem => exact ih _ (fun x hx => hall x (List.mem_cons_of_mem t hx)) hm

lemma print_tablerel_term (db : Database) :
    ∀ (f : Nat) (orig tfrom tto : String) (rel : Nat) (s : St),
      tto ∈ allNames db → measureR db s < f →
      ∃ s', print_tablerel db f orig tfrom tto rel s = some s' := by
  intro f
  induction f with
  | zero =>
    intro orig tfrom tto rel s htto hm
    exact absurd hm (Nat.not_lt_zero _)
  | succ f ih =>
    intro orig tfrom tto rel s htto hm
    have hwork : ∀ (lines : List (String × String)) (fkRel refRel : Nat), tto ∉ s.route →
        ∃ s', workTail db.relations (db.entries.map Table.name) orig tto lines
          (fun t s' => print_tablerel db f orig tto t fkRel s')
          (fun t s' => print_tablerel db f orig tto t refRel s') s = some s' := by
      intro lines fkRel refRel hniroute
      have hm1 : measureR db (workState lines tto s) < f := by
        have := measure_dec lines htto hniroute
        omega
      obtain ⟨s2, hs2⟩ := @fkFold_term db f orig
        (fun t s' => print_tablerel db f orig tto t fkRel s')
        (fun t s1 ht hms => ih orig tto t fkRel s1 ht hms)
        (fun t s1 s1' h1 h2 => print_tablerel_good db f orig tto t fkRel s1 s1' h1 h2)
        (rlookup db.relations tto) (workState lines tto s)
        (fun x hx => rlookup_sub_allNames db tto x hx) hm1
      have hg2 : Good orig (workState lines tto s) s2 :=
        fkFold_good (fun t s1 s1' h1 h2 =>
          print_tablerel_good db f orig tto t fkRel s1 s1' h1 h2) _ _ _ hs2
      have hm2 : measureR db s2 < f := lt_of_le_of_lt (measure_mono hg2.1.2.1) hm1
      obtain ⟨s3, hs3⟩ := @refFold_term db f orig tto
        (fun t s' => print_tablerel db f orig tto t refRel s')
        (fun t s1 ht hms => ih orig tto t refRel s1 ht hms)
        (fun t s1 s1' h1 h2 => print_tablerel_good db f orig tto t refRel s1 s1' h1 h2)
        (db.entries.map Table.name) s2 (fun x hx => entryNames_sub_allNames db x hx) hm2
      refine ⟨s3, ?_⟩
      simp only [workTail]
      rw [hs2]
      exact hs3
    simp only [print_tablerel]
    split
    · split
      · next hc => exact hwork _ 0 2 hc.2
      · exact ⟨s, rfl⟩
    · split
      · split
        · next hc => exact hwork _ 2 1 hc.2
        · exact ⟨s, rfl⟩
      · split
        · split
          · next hc => exact hwork _ 2 2 hc.1
          · exact ⟨s, rfl⟩
        · exact ⟨s, rfl⟩

lemma xmlrelA_term (db : Database) (origin : String) :
    ∀ (ts : List String) (s : St), (∀ t ∈ ts, t ∈ allNames db) →
      ∃ s', xmlrelA db (fuelBound db) origin ts s = some s' := by
  intro ts
  induction ts with
  | nil => exact fun s _ => ⟨s, rfl⟩
  | cons t2 ts ih =>
    intro s hall
    simp only [xmlrelA]
    split
    · have hm : measureR db s < fuelBound db :=
        lt_of_le_of_lt (measure_le_card db s) (Nat.lt_succ_self _)
      obtain ⟨s1, hs1⟩ := print_tablerel_term db (fuelBound db) origin origin t2 0 s
        (hall t2 (List.mem_cons_self t2 ts)) hm
      rw [hs1]
      exact ih s1 (fun x hx => hall x (List.mem_cons_of_mem t2 hx))
    · exact ih s (fun x hx => hall x (List.mem_cons_of_mem t2 hx))

lemma xmlrelB_term (db : Database) (origin : String) :
    ∀ (ts : List String) (s : St), (∀ t ∈ ts, t ∈ allNames db) →
      ∃ s', xmlrelB db (fuelBound db) origin ts s = some s' := by
  intro ts
  induction ts with
  | nil => exact fun s _ => ⟨s, rfl⟩
  | cons t2 ts ih =>
    intro s hall
    simp only [xmlrelB]
    split
    · split
      · exact ih _ (fun x hx => hall x (List.mem_cons_of_mem t2 hx))
      · have hm : measureR db s < fuelBound db :=
          lt_of_le_of_lt (measure_le_card db s) (Nat.lt_succ_self _)
        obtain ⟨s1, hs1⟩ := print_tablerel_term db (fuelBound db) origin origin t2 1 s
          (hall t2 (List.mem_cons_self t2 ts)) hm
        rw [hs1]
        exact ih s1 (fun x hx => hall x (List.mem_cons_of_mem t2 hx))
    · exact ih s (fun x hx => hall x (List.mem_cons_of_mem t2 hx))

lemma xmlrelTable_term (db : Database) (origin : String) :
    ∃ st, xmlrelTable db (fuelBound db) origin = some st := by
  obtain ⟨s1, hs1⟩ := xmlrelA_term db origin (db.entries.map Table.name) ⟨[], false, []⟩
    (fun x hx => entryNames_sub_allNames db x hx)
  obtain ⟨s2, hs2⟩ := xmlrelB_term db origin (db.entries.map Table.name) s1
    (fun x hx => entryNames_sub_allNames db x hx)
  refine ⟨s2, ?_⟩
  simp only [xmlrelTable]
  rw [hs1]
  exact hs2

lemma fm_refl (st : List Table × List (String × List String)) : FM st st :=
  ⟨fun _ t h => ⟨t, h, rfl, rfl, rfl, rfl, fun _ hk => hk⟩, fun _ _ h => h⟩

lemma fm_trans {a b c : List Table × List (String × List String)}
    (h1 : FM a b) (h2 : FM b c) : FM a c := by
  refine ⟨fun n t h => ?_, fun x y h => h2.2 x y (h1.2 x y h)⟩
  obtain ⟨t1, hl1, hn1, hc1, hr1, hv1, hk1⟩ := h1.1 n t h
  obtain ⟨t2, hl2, hn2, hc2, hr2, hv2, hk2⟩ := h2.1 n t1 hl1
  exact ⟨t2, hl2, hn2.trans hn1, hc2.trans hc1, hr2.trans hr1, hv2.trans hv1,
    fun k hk => hk2 k (hk1 k hk)⟩

lemma entLookup_name {entries : List Table} {n : String} {t : Table}
    (h : entLookup entries n = some t) : t.name = n := by
  have := List.find?_some h
  simpa using this

lemma entLookup_mem {entries : List Table} {n : String} {t : Table}
    (h : entLookup entries n = some t) : t ∈ entries :=
  List.mem_of_find?_eq_some h

lemma entLookup_entPut (l : List Table) (t : Table) (n : String) :
    entLookup (entPut l t) n = if t.name == n then some t else entLookup l n := by
  induction l with
  | nil =>
    by_cases htn : t.name = n
    · subst htn
      simp [entPut, entLookup, List.find?]
    · have hb : (t.name == n) = false := beq_eq_false_iff_ne.mpr htn
      simp [entPut, entLookup, List.find?, hb, htn]
  | cons x xs ih =>
    simp only [entPut]
    split
    · next hx =>
      have hxn : x.name = t.name := by simpa using hx
      by_cases htn : t.name = n
      · subst htn
        simp [entLookup, List.find?]
      · have hb : (t.name == n) = false := beq_eq_false_iff_ne.mpr htn
        have hb' : (x.name == n) = false := beq_eq_false_iff_ne.mpr (hxn ▸ htn)
        simp [entLookup, List.find?, hb, hb']
    · next hx =>
      by_cases hxn : x.name = n
      · subst hxn
        have hb : (t.name == x.name) = false := by
          apply beq_eq_false_iff_ne.mpr
          intro hc
          exact hx (by simp [hc])
        simp [entLookup, List.find?, hb]
      · have hb' : (x.name == n) = false := beq_eq_false_iff_ne.mpr hxn
        simp only [entLookup, List.find?, hb', cond_false] at ih ⊢
        exact ih

lemma set_key_fields {t t' : Table} {r : String} (h : t.set_key r = .ok t') :
    t'.name = t.name ∧ t'.columns = t.columns ∧ t'.relations = t.relations ∧
      t'.value = t.value ∧ (∀ k ∈ t.keys, k ∈ t'.keys) ∧ (r ++ "_id") ∈ t'.keys := by
  simp only [Table.set_key] at h
  split at h
  · cases h
  · rw [Except.ok.injEq] at h
    subst h
    refine ⟨rfl, rfl, rfl, rfl, ?_, ?_⟩
    · intro k hk
      split
      · exact hk
      · exact List.mem_append_left _ hk
    · split
      · next hmem => exact hmem
      · exact List.mem_append_right _ (List.mem_singleton.mpr rfl)

lemma rlookup_cons (p : String × List String) (ps : List (String × List String)) (k : String) :
    rlookup (p :: ps) k = if p.1 == k then p.2 else rlookup ps k := by
  by_cases h : p.1 = k
  · subst h
    simp [rlookup, List.find?]
  · have hb : (p.1 == k) = false := beq_eq_false_iff_ne.mpr h
    simp [rlookup, List.find?, hb]

lemma radd_some {rs rs' : List (String × List String)} {a b : String}
    (h : radd rs a b = some rs') :
    b ∈ rlookup rs' a ∧ EdgeMono rs rs' := by
  induction rs generalizing rs' with
  | nil => cases h
  | cons p ps ih =>
    simp only [radd] at h
    split at h
    · next hpa =>
      have hpa' : p.1 = a := by simpa using hpa
      rw [Option.some.injEq] at h
      subst h
      constructor
      · rw [rlookup_cons]
        simp only [hpa, if_pos]
        split
        · next hmem => exact hmem
        · exact List.mem_append_right _ (List.mem_singleton.mpr rfl)
      · intro x y hy
        rw [rlookup_cons] at hy ⊢
        by_cases hx : p.1 = x
        · rw [if_pos (by simpa using hx)] at hy ⊢
          split
          · exact hy
          · exact List.mem_append_left _ hy
        · rw [if_neg (by simpa using hx)] at hy ⊢
          exact hy
    · next hpa =>
      cases hr : radd ps a b with
      | none => rw [hr] at h; cases h
      | some ps' =>
        rw [hr] at h
        rw [Option.map_some', Option.some.injEq] at h
        subst h
        obtain ⟨hb, hmono⟩ := ih hr
        constructor
        · rw [rlookup_cons, if_neg hpa]
          exact hb
        · intro x y hy
          rw [rlookup_cons] at hy ⊢
          split at hy
          · next hx => rw [if_pos hx]; exact hy
          · next hx => rw [if_neg hx]; exact hmono x y hy

lemma foldlM_except_cons {σ α : Type} (f : σ → α → Except XTDErr σ) (a : α) (l : List α)
    (s : σ) :
    (a :: l).foldlM f s = match f s a with
      | .error e => .error e
      | .ok s1 => l.foldlM f s1 := by
  rw [List.foldlM_cons]
  cases f s a <;> rfl

lemma foldlM_except_nil {σ α : Type} (f : σ → α → Except XTDErr σ) (s : σ) :
    ([] : List α).foldlM f s = .ok s := rfl

lemma foldlM_except_append {σ α : Type} (f : σ → α → Except XTDErr σ) (l1 l2 : List α)
    (s : σ) :
    (l1 ++ l2).foldlM f s = match l1.foldlM f s with
      | .error e => .error e
      | .ok s1 => l2.foldlM f s1 := by
  induction l1 generalizing s with
  | nil => rfl
  | cons a l1 ih =>
    rw [List.cons_append, foldlM_except_cons, foldlM_except_cons]
    cases f s a with
    | error e => rfl
    | ok s1 => exact ih s1

lemma foldlM_except_inv {σ α : Type} {R : σ → σ → Prop}
    (hrefl : ∀ s, R s s) (htrans : ∀ a b c, R a b → R b c → R a c)
    {f : σ → α → Except XTDErr σ}
    (hf : ∀ s a s', f s a = .ok s' → R s s') :
    ∀ (l : List α) (s s' : σ), l.foldlM f s = .ok s' → R s s' := by
  intro l
  induction l with
  | nil =>
    intro s s' h
    rw [foldlM_except_nil, Except.ok.injEq] at h
    subst h
    exact hrefl s
  | cons a l ih =>
    intro s s' h
    rw [foldlM_except_cons] at h
    cases hfa : f s a with
    | error e => rw [hfa] at h; cases h
    | ok s1 =>
      rw [hfa] at h
      exact htrans _ _ _ (hf s a s1 hfa) (ih s1 s' h)

lemma entMono_put {entries : List Table} {n0 : String} {t t' : Table}
    (hl : entLookup entries n0 = some t)
    (hfields : t'.name = t.name ∧ t'.columns = t.columns ∧ t'.relations = t.relations ∧
      t'.value = t.value ∧ ∀ k ∈ t.keys, k ∈ t'.keys) :
    EntMono entries (entPut entries t') := by
  intro n u hu
  rw [entLookup_entPut]
  by_cases hn : t'.name = n
  · have hn0 : n = n0 := by
      rw [← hn, hfields.1]
      exact entLookup_name hl
    subst hn0
    rw [hl, Option.some.injEq] at hu
    subst hu
    rw [if_pos (by simpa using hn)]
    exact ⟨t', rfl, hfields.1, hfields.2.1, hfields.2.2.1, hfields.2.2.2.1, hfields.2.2.2.2⟩
  · rw [if_neg (by simpa using hn)]
    exact ⟨u, hu, rfl, rfl, rfl, rfl, fun _ hk => hk⟩

lemma setkey_radd_fm {st : List Table × List (String × List String)}
    {n0 r a b : String} {t t' : Table} {rels' : List (String × List String)}
    (hl : entLookup st.1 n0 = some t) (hsk : t.set_key r = .ok t')
    (hradd : radd st.2 a b = some rels') : FM st (entPut st.1 t', rels') :=
  ⟨entMono_put hl ⟨(set_key_fields hsk).1, (set_key_fields hsk).2.1,
    (set_key_fields hsk).2.2.1, (set_key_fields hsk).2.2.2.1,
    (set_key_fields hsk).2.2.2.2.1⟩, (radd_some hradd).2⟩

lemma flushRel_fm {dup : Bool} {etc : Int} {tn : String}
    {st st' : List Table × List (String × List String)} {rc : String × Nat}
    (h : flushRel dup etc tn st rc = .ok st') : FM st st' := by
  unfold flushRel at h
  split at h
  · cases h
  · next table hl =>
    split at h
    · -- duplicity branch
      split at h
      · cases h
      · split at h
        · cases h
        · next t' hsk =>
          split at h
          · cases h
          · next rels' hradd =>
            rw [Except.ok.injEq] at h
            subst h
            exact setkey_radd_fm hl hsk hradd
    · split at h
      · -- max-columns branch
        split at h
        · cases h
        · next child hlc =>
          split at h
          · cases h
          · split at h
            · cases h
            · next c' hsk =>
              split at h
              · cases h
              · next rels' hradd =>
                rw [Except.ok.injEq] at h
                subst h
                exact setkey_radd_fm hlc hsk hradd
      · split at h
        · -- default branch, count == 1
          split at h
          · cases h
          · split at h
            · cases h
            · next t' hsk =>
              split at h
              · cases h
              · next rels' hradd =>
                rw [Except.ok.injEq] at h
                subst h
                exact setkey_radd_fm hl hsk hradd
        · -- default branch, numbered keys
          split at h
          · cases h
          · next st3 hfold =>
            split at h
            · cases h
            · next rels' hradd =>
              rw [Except.ok.injEq] at h
              subst h
              have hstep : FM st st3 := by
                refine foldlM_except_inv fm_refl (fun a b c => fm_trans) ?_ _ _ _ hfold
                intro s2 num s2' hs2
                split at hs2
                · cases hs2
                · next t hl2 =>
                  split at hs2
                  · cases hs2
                  · split at hs2
                    · cases hs2
                    · next t' hsk =>
                      rw [Except.ok.injEq] at hs2
                      subst hs2
                      exact ⟨entMono_put hl2 ⟨(set_key_fields hsk).1, (set_key_fields hsk).2.1,
                        (set_key_fields hsk).2.2.1, (set_key_fields hsk).2.2.2.1,
                        (set_key_fields hsk).2.2.2.2.1⟩, fun _ _ hx => hx⟩
              exact fm_trans hstep ⟨fun n t ht => ⟨t, ht, rfl, rfl, rfl, rfl, fun _ hk => hk⟩,
                (radd_some hradd).2⟩

lemma flushTable_fm {dup : Bool} {etc : Int} {tn : String}
    {st st' : List Table × List (String × List String)}
    (h : flushTable dup etc st tn = .ok st') : FM st st' := by
  unfold flushTable at h
  cases hl : entLookup st.1 tn with
  | none => rw [hl] at h; cases h
  | some table =>
    rw [hl] at h
    exact foldlM_except_inv fm_refl (fun a b c => fm_trans) (fun s a s' hs => flushRel_fm hs)
      _ _ _ h

lemma hasKey_mono {e e' : List Table} {n k : String} (hm : EntMono e e') (h : hasKey e n k) :
    hasKey e' n k := by
  obtain ⟨t, hl, hk⟩ := h
  obtain ⟨t', hl', _, _, _, _, hkeys⟩ := hm n t hl
  exact ⟨t', hl', hkeys k hk⟩

lemma flushRel_dup_adds {etc : Int} {tn : String}
    {st st' : List Table × List (String × List String)} {rc : String × Nat}
    (h : flushRel true etc tn st rc = .ok st') :
    hasKey st'.1 tn (rc.1 ++ "_id") ∧ rc.1 ∈ rlookup st'.2 tn := by
  unfold flushRel at h
  split at h
  · cases h
  · next table hl =>
    split at h
    · split at h
      · cases h
      · split at h
        · cases h
        · next t' hsk =>
          split at h
          · cases h
          · next rels' hradd =>
            rw [Except.ok.injEq] at h
            subst h
            constructor
            · refine ⟨t', ?_, (set_key_fields hsk).2.2.2.2.2⟩
              rw [entLookup_entPut]
              have hname : t'.name = tn := (set_key_fields hsk).1.trans (entLookup_name hl)
              rw [if_pos (by simpa using hname)]
            · exact (radd_some hradd).1
    · next hcond => exact absurd rfl hcond

lemma flushTable_dup_adds {etc : Int} {tn child : String} {cnt : Nat} {t : Table}
    {st st' : List Table × List (String × List String)}
    (hl : entLookup st.1 tn = some t) (hrel : (child, cnt) ∈ t.relations)
    (h : flushTable true etc st tn = .ok st') :
    hasKey st'.1 tn (child ++ "_id") ∧ child ∈ rlookup st'.2 tn := by
  unfold flushTable at h
  split at h
  · next hl2 => rw [hl] at hl2; cases hl2
  · next table hl2 =>
    rw [hl, Option.some.injEq] at hl2
    subst hl2
    obtain ⟨r1, r2, hsplit⟩ := List.append_of_mem hrel
    rw [hsplit, foldlM_except_append] at h
    split at h
    · cases h
    · next s1 hf1 =>
      rw [foldlM_except_cons] at h
      split at h
      · cases h
      · next s2 hstep =>
        have hadds := flushRel_dup_adds hstep
        have hfm : FM s2 st' :=
          foldlM_except_inv fm_refl (fun a b c => fm_trans)
            (fun s a s' hs => flushRel_fm hs) _ _ _ h
        exact ⟨hasKey_mono hfm.1 hadds.1, hfm.2 _ _ hadds.2⟩

lemma flush_dup_adds {db : Database} {pn child : String} {cnt : Nat} {pt : Table}
    {db' : Database}
    (hdup : db.duplicity = true)
    (hpt : entLookup db.entries pn = some pt)
    (hrel : (child, cnt) ∈ pt.relations)
    (hok : db.flush = .ok db') :
    hasKey db'.entries pn (child ++ "_id") ∧ child ∈ rlookup db'.relations pn := by
  simp only [Database.flush, hdup] at hok
  split at hok
  · cases hok
  · next stF hfold =>
    rw [Except.ok.injEq] at hok
    subst hok
    have hmem : pn ∈ db.entries.map Table.name := by
      rw [List.mem_map]
      exact ⟨pt, entLookup_mem hpt, entLookup_name hpt⟩
    obtain ⟨n1, n2, hsplit⟩ := List.append_of_mem hmem
    rw [hsplit, foldlM_except_append] at hfold
    split at hfold
    · cases hfold
    · next s1 hf1 =>
      rw [foldlM_except_cons] at hfold
      split at hfold
      · cases hfold
      · next s2 hstep =>
        have hfm1 : FM (db.entries, db.entries.map (fun t => (t.name, []))) s1 :=
          foldlM_except_inv fm_refl (fun a b c => fm_trans)
            (fun s a s' hs => flushTable_fm hs) _ _ _ hf1
        obtain ⟨pt1, hl1, hn1, hc1, hr1, hv1, hk1⟩ := hfm1.1 pn pt hpt
        have hrel1 : (child, cnt) ∈ pt1.relations := hr1 ▸ hrel
        have hadds := flushTable_dup_adds hl1 hrel1 hstep
        have hfm2 : FM s2 stF :=
          foldlM_except_inv fm_refl (fun a b c => fm_trans)
            (fun s a s' hs => flushTable_fm hs) _ _ _ hfold
        exact ⟨hasKey_mono hfm2.1 hadds.1, hfm2.2 _ _ hadds.2⟩

lemma prk_ne_value (e : String) : "prk_" ++ e ++ "_id" ≠ "value" := by
  intro h
  have hlen : ("prk_" ++ e ++ "_id").length = ("value" : String).length := by rw [h]
  rw [String.length_append, String.length_append] at hlen
  have h1 : ("prk_" : String).length = 4 := rfl
  have h2 : ("_id" : String).length = 3 := rfl
  have h3 : ("value" : String).length = 5 := rfl
  omega

lemma table_update_attribute_prk (t : Table) (d : String) :
    t.update_attribute ("prk_" ++ t.name ++ "_id") d = .error .nameError := by
  unfold Table.update_attribute
  rw [if_neg (prk_ne_value t.name), if_pos rfl]

lemma table_update_attribute_error {t : Table} {c d : String} {e : XTDErr}
    (h : t.update_attribute c d = .error e) : e = .nameError := by
  unfold Table.update_attribute at h
  split at h
  · exact Except.noConfusion h
  · split at h
    · rw [Except.error.injEq] at h
      exact h.symm
    · exact Except.noConfusion h

lemma db_update_attribute_prk {db : Database} (hnc : db.no_columns = false) (e d : String) :
    db.update_attribute e ("prk_" ++ e ++ "_id") d = .error .nameError := by
  unfold Database.update_attribute
  rw [if_neg (by rw [hnc]; exact Bool.false_ne_true)]
  have hname : ((entLookup db.entries e).getD (Table.init e)).name = e := by
    cases hl : entLookup db.entries e with
    | none => rfl
    | some t => exact entLookup_name hl
  have hupd := table_update_attribute_prk ((entLookup db.entries e).getD (Table.init e)) d
  rw [hname] at hupd
  rw [hupd]

lemma runObs_error_name {db : Database} {o : Obs} {e : XTDErr}
    (h : runObs db o = .error e) : e = .nameError := by
  cases o with
  | attr name a d =>
    simp only [runObs, Database.update_attribute] at h
    split at h
    · exact Except.noConfusion h
    · split at h
      · next e' herr =>
        rw [Except.error.injEq] at h
        subst h
        exact table_update_attribute_error herr
      · exact Except.noConfusion h
  | val name d => exact Except.noConfusion h
  | rels name info => exact Except.noConfusion h

lemma runObs_config {db db' : Database} {o : Obs} (h : runObs db o = .ok db') :
    db'.no_columns = db.no_columns ∧ db'.etc = db.etc ∧ db'.duplicity = db.duplicity := by
  cases o with
  | attr name a d =>
    simp only [runObs, Database.update_attribute] at h
    split at h
    · rw [Except.ok.injEq] at h
      subst h
      exact ⟨rfl, rfl, rfl⟩
    · split at h
      · exact Except.noConfusion h
      · rw [Except.ok.injEq] at h
        subst h
        exact ⟨rfl, rfl, rfl⟩
  | val name d =>
    simp only [runObs, Database.update_value] at h
    rw [Except.ok.injEq] at h
    subst h
    exact ⟨rfl, rfl, rfl⟩
  | rels name info =>
    simp only [runObs, Database.update_relations] at h
    rw [Except.ok.injEq] at h
    subst h
    exact ⟨rfl, rfl, rfl⟩

lemma runWalk_error_name {db : Database} {l : List Obs} {e : XTDErr}
    (h : runWalk db l = .error e) : e = .nameError := by
  induction l generalizing db with
  | nil => cases h
  | cons o l ih =>
    unfold runWalk at h ih
    rw [foldlM_except_cons] at h
    split at h
    · next e' herr =>
      rw [Except.error.injEq] at h
      subst h
      exact runObs_error_name herr
    · next db1 hok => exact ih h

lemma runWalk_config {db db' : Database} {l : List Obs} (h : runWalk db l = .ok db') :
    db'.no_columns = db.no_columns := by
  induction l generalizing db with
  | nil =>
    unfold runWalk at h
    rw [foldlM_except_nil, Except.ok.injEq] at h
    subst h
    rfl
  | cons o l ih =>
    unfold runWalk at h ih
    rw [foldlM_except_cons] at h
    split at h
    · cases h
    · next db1 hok => exact (ih h).trans (runObs_config hok).1

lemma classify_attr_ne_ntext (d : String) : classify d false ≠ .NTEXT := by
  unfold classify
  split
  · exact fun h => DataType.noConfusion h
  · split
    · exact fun h => DataType.noConfusion h
    · split
      · exact fun h => DataType.noConfusion h
      · split
        · exact fun h => DataType.noConfusion h
        · simp

lemma mergeDT_attr_ceiling :
    ∀ dt ind : DataType, dt ≠ .NTEXT → ind ≠ .NTEXT → mergeDT dt ind ≠ .NTEXT := by
  decide

lemma get_data_type_attr {d : String} {prev : DataType} (h : prev ≠ .NTEXT) :
    get_data_type d prev false ≠ .NTEXT :=
  mergeDT_attr_ceiling prev (classify d false) h (classify_attr_ne_ntext d)

lemma alistGet_cases {α : Type} (l : List (String × α)) (k : String) (dflt : α) :
    alistGet l k dflt = dflt ∨ ∃ p ∈ l, alistGet l k dflt = p.2 := by
  unfold alistGet
  cases hf : l.find? (fun p => p.1 == k) with
  | none => exact Or.inl rfl
  | some p => exact Or.inr ⟨p, List.mem_of_find?_eq_some hf, rfl⟩

lemma alistSet_mem {α : Type} :
    ∀ (l : List (String × α)) (k : String) (v : α) (p : String × α),
      p ∈ alistSet l k v → p ∈ l ∨ p = (k, v) := by
  intro l
  induction l with
  | nil =>
    intro k v p hp
    simp only [alistSet, List.mem_singleton] at hp
    exact Or.inr hp
  | cons x xs ih =>
    intro k v p hp
    simp only [alistSet] at hp
    split at hp
    · rcases List.mem_cons.mp hp with h | h
      · exact Or.inr h
      · exact Or.inl (List.mem_cons_of_mem x h)
    · rcases List.mem_cons.mp hp with h | h
      · exact Or.inl (h ▸ List.mem_cons_self x xs)
      · rcases ih k v p h with h1 | h1
        · exact Or.inl (List.mem_cons_of_mem x h1)
        · exact Or.inr h1

/-- Claim C2 (code bug): the spec's merge is required to widen the previous
type to accommodate the classified literal, but the missing parentheses in
`data_type == "FLOAT" and indata_type == "BIT" or indata_type == "INT" or
indata_type == "FLOAT"` (lines 504-505, Python `and` binds tighter than
`or`) make `get_data_type` return INT for a previous type INT and the
FLOAT-classified literal "1.5" in either context, below
`classify("1.5") = FLOAT`. -/
theorem c2_code_bug :
    classify "1.5" false = DataType.FLOAT ∧ classify "1.5" true = DataType.FLOAT ∧
    get_data_type "1.5" DataType.INT false = DataType.INT ∧
    get_data_type "1.5" DataType.INT true = DataType.INT ∧
    DataType.INT.rank < DataType.FLOAT.rank := by
  decide

/-- Claim C3 (code bug): `Table.update_value` reads the previous type from
`self.__columns.get("value", "BIT")` (line 479) instead of `self.__value`,
so the value type is just the classification of the last literal: observing
"ab" (NTEXT) and then "1" leaves the value type at BIT, strictly below the
NTEXT it held before, contradicting widen-only accumulation. -/
theorem c3_code_bug :
    ((Table.init "e").update_value "ab").value = some DataType.NTEXT ∧
    (((Table.init "e").update_value "ab").update_value "1").value = some DataType.BIT ∧
    DataType.BIT.rank < DataType.NTEXT.rank := by
  decide

/-- Claim C5 (code bug): because of the same precedence slip as C2, folding
the merge over the literal multiset {"1.5", "2"} in attribute context gives
FLOAT in one order and INT in the other: the accumulated type is
order-dependent. -/
theorem c5_code_bug :
    ["1.5", "2"].foldl (fun t l => get_data_type l t false) DataType.BIT = DataType.FLOAT ∧
    ["2", "1.5"].foldl (fun t l => get_data_type l t false) DataType.BIT = DataType.INT ∧
    DataType.FLOAT ≠ DataType.INT := by
  decide

/-- Claim C4 (counterexample): an attribute literally named "value" is
routed by `Table.update_attribute` (line 457) to `update_value`, a
value-context merge, so the NTEXT data type IS produced from an attribute
observation — here the attribute value "ab" of attribute "value". -/
theorem c4_counterexample :
    ((Table.init "e").update_attribute "value" "ab").map Table.value =
      Except.ok (some DataType.NTEXT) := by
  rfl

/-- Claim C4 (amended): no attribute-context merge (context flag 0) ever
yields NTEXT for a column: updating any attribute keeps every column type
below NTEXT; NTEXT can only reach the value slot, via the value-context
merge used for element text content and for the special attribute named
"value". -/
theorem c4_amended :
    ∀ (t : Table) (col data : String) (t' : Table),
      (∀ p ∈ t.columns, p.2 ≠ DataType.NTEXT) →
      t.update_attribute col data = .ok t' →
      ∀ p ∈ t'.columns, p.2 ≠ DataType.NTEXT := by
  intro t col data t' hcols hupd p hp
  unfold Table.update_attribute at hupd
  split at hupd
  · rw [Except.ok.injEq] at hupd
    subst hupd
    exact hcols p hp
  · split at hupd
    · exact Except.noConfusion hupd
    · rw [Except.ok.injEq] at hupd
      subst hupd
      rcases alistSet_mem t.columns col
        (get_data_type data (alistGet t.columns col .BIT) false) p hp with hold | hnew
      · exact hcols p hold
      · rw [hnew]
        apply get_data_type_attr
        rcases alistGet_cases t.columns col DataType.BIT with hdef | ⟨p0, hp0, hgot⟩
        · rw [hdef]
          exact fun h => DataType.noConfusion h
        · rw [hgot]
          exact hcols p0 hp0

/-- Witness for C4 (amended) at a concrete table and attribute. -/
theorem c4_witness : (("a", DataType.NVARCHAR) : String × DataType).2 ≠ DataType.NTEXT :=
  c4_amended (Table.init "e") "a" "xyz" ⟨"e", [("a", DataType.NVARCHAR)], [], [], none⟩
    (by simp [Table.init]) rfl ("a", DataType.NVARCHAR) (by simp)

/-- Claim C10 (confirmed): `data_type_usable` returns true whenever the
target is not one of the five data types — in particular for an unset
(`None`) value slot — so `is_subset` accepts an entity whose second-schema
value type is present while the first-schema value type is absent. -/
theorem c10_theorem :
    (∀ d2 : Option DataType, data_type_usable none d2 = true) ∧
    (∀ (v : DataType) (n : String),
      Database.is_subset ⟨-1, false, false, [⟨n, [], [], [], none⟩], []⟩
        ⟨-1, false, false, [⟨n, [], [], [], some v⟩], []⟩ = true) := by
  constructor
  · decide
  · intro v n
    have h1 : entLookup [(⟨n, [], [], [], none⟩ : Table)] n = some ⟨n, [], [], [], none⟩ := by
      simp [entLookup, List.find?]
    simp only [Database.is_subset, List.all_cons, List.all_nil, Bool.and_true]
    rw [h1]
    simp only [List.all_nil, Bool.true_and]
    cases v <;> rfl

/-- Claim C1 (counterexample): in duplicate-keys mode `flush` executes
`table.set_key(name)` (line 131) on the PARENT table: with parent `p`
recording child `c`, the flushed database gives `p` the key column `c_id`
and gives `c` no key at all, so the generated foreign key is not placed on
the child entity. -/
theorem c1_counterexample :
    c1db.duplicity = true ∧
    (entLookup c1db.entries "p").map Table.relations = some [("c", 2)] ∧
    c1db.flush.toOption = some c1post ∧
    (entLookup c1post.entries "c").map Table.keys = some [] ∧
    (entLookup c1post.entries "p").map Table.keys = some ["c_id"] := by
  exact ⟨rfl, rfl, rfl, rfl, rfl⟩

/-- Claim C1 (amended): in duplicate-keys finalization mode, for every
(parent entity, child tag) relation recorded during the walk, a successful
flush adds the generated foreign-key column `<child>_id` to the PARENT
entity referencing the child — regardless of the observed occurrence
count — and records the edge parent → child in the relation graph. -/
theorem c1_amended {db : Database} {pn child : String} {cnt : Nat} {pt : Table}
    {db' : Database}
    (hdup : db.duplicity = true)
    (hpt : entLookup db.entries pn = some pt)
    (hrel : (child, cnt) ∈ pt.relations)
    (hok : db.flush = .ok db') :
    hasKey db'.entries pn (child ++ "_id") ∧ child ∈ rlookup db'.relations pn :=
  flush_dup_adds hdup hpt hrel hok

/-- Witness for C1 (amended) at the concrete database `c1db` (count 2). -/
theorem c1_witness :
    hasKey c1post.entries "p" ("c" ++ "_id") ∧ "c" ∈ rlookup c1post.relations "p" :=
  @c1_amended c1db "p" "c" 2 ⟨"p", [], [("c", 2)], [], none⟩ c1post rfl rfl (by decide) rfl

/-- Claim C6 (confirmed): for every database, fuel, and origin, a completed
relation report for that origin contains at most one 1:1 line, and every
1:1 line it contains names the origin itself — the `printed` flag is set by
the first 1:1 emission and suppresses all later returns to the origin. -/
theorem c6_theorem :
    ∀ (db : Database) (fuel : Nat) (origin : String) (out : List (String × String)),
      originReport db fuel origin = some out →
      cnt11 out ≤ 1 ∧ ∀ p ∈ out, p.1 = "1:1" → p.2 = origin := by
  intro db fuel origin out h
  unfold originReport at h
  cases hst : xmlrelTable db fuel origin with
  | none => rw [hst] at h; cases h
  | some st =>
    rw [hst] at h
    rw [Option.map_some', Option.some.injEq] at h
    subst h
    have hg := xmlrelTable_good db fuel origin st hst
    obtain ⟨hp, hr, ⟨add, hout⟩, hcnt, hl⟩ := hg.1
    constructor
    · have hb : b2n st.printed ≤ 1 := by cases st.printed <;> simp [b2n]
      have h0 : cnt11 (⟨[], false, []⟩ : St).out = 0 := rfl
      have hbf : b2n (⟨[], false, []⟩ : St).printed = 0 := rfl
      omega
    · intro p hp1 h11
      rcases hl p hp1 with hin | himp
      · exact absurd hin (List.not_mem_nil p)
      · exact himp h11

/-- Witness for C6 at `c6post`: origin `a` is reachable back from itself
along two distinct paths (via b and via c), yet exactly one 1:1 line is
emitted. -/
theorem c6_witness :
    originReport c6post 10 "a" = some [("N:M", "b"), ("1:1", "a"), ("N:M", "c")] ∧
    cnt11 [("N:M", "b"), ("1:1", "a"), ("N:M", "c")] ≤ 1 :=
  ⟨by decide, (c6_theorem c6post 10 "a" _ (by decide)).1⟩

/-- Claim C7 (counterexample): in `c7post` the finalized relation graph
contains both a→b and b→a, yet the relation report of origin `a` contains
NO N:M line at all: the traversal reaches `b` first through c with an N:1
label, and the later direct inspection of the mutual pair is suppressed by
the route guard — not "exactly one N:M line" as claimed. -/
theorem c7_counterexample :
    "b" ∈ rlookup c7post.relations "a" ∧ "a" ∈ rlookup c7post.relations "b" ∧
    originReport c7post 10 "a" = some [("N:1", "c"), ("N:1", "b"), ("1:1", "a")] ∧
    ([(("N:1", "c") : String × String), ("N:1", "b"), ("1:1", "a")].filter
      (fun p => p.1 == "N:M")) = [] := by
  refine ⟨by decide, by decide, by decide, by decide⟩

/-- Claim C7 (amended): for every origin, a completed relation report never
names the same partner entity twice — so a mutual pair A↔B yields at most
one line between A and B per origin (never two opposite-direction lines),
emitted as N:M only when the pair is inspected directly before either
endpoint was visited along another path. -/
theorem c7_amended :
    ∀ (db : Database) (fuel : Nat) (origin : String) (out : List (String × String)),
      originReport db fuel origin = some out → (out.map Prod.snd).Nodup := by
  intro db fuel origin out h
  unfold originReport at h
  cases hst : xmlrelTable db fuel origin with
  | none => rw [hst] at h; cases h
  | some st =>
    rw [hst] at h
    rw [Option.map_some', Option.some.injEq] at h
    subst h
    have hg := xmlrelTable_good db fuel origin st hst
    exact (hg.2 (inv_init origin)).2.2.1

/-- Witness for C7 (amended) at `c7post`. -/
theorem c7_witness :
    originReport c7post 10 "a" = some [("N:1", "c"), ("N:1", "b"), ("1:1", "a")] ∧
    (([(("N:1", "c") : String × String), ("N:1", "b"), ("1:1", "a")].map Prod.snd).Nodup) :=
  ⟨by decide, c7_amended c7post 10 "a" _ (by decide)⟩

/-- Claim C8 (confirmed): for every database (cycles included) the
relation-report traversal for any origin terminates within recursion depth
bounded by the number of distinct entity names: with fuel one more than
that count the traversal completes, and the final route holds pairwise
distinct names, because an entity already in `route` is never re-entered
and `route` only grows. -/
theorem c8_theorem :
    ∀ (db : Database) (origin : String),
      ∃ st, xmlrelTable db (fuelBound db) origin = some st ∧ st.route.Nodup := by
  intro db origin
  obtain ⟨st, hst⟩ := xmlrelTable_term db origin
  have hg := xmlrelTable_good db (fuelBound db) origin st hst
  exact ⟨st, hst, (hg.2 (inv_init origin)).2.2.2⟩

/-- Claim C9 (counterexample): with column generation disabled (`-a`,
`no_columns`), `Database.update_attribute` returns before the reserved-name
check (line 109), so a document whose entity `e` carries an attribute named
`prk_e_id` raises nothing and the run produces its DDL output normally. -/
theorem c9_counterexample :
    (xtdDDL (-1) false true [Obs.rels "e" [], Obs.attr "e" "prk_e_id" "x"]).toOption =
      some "CREATE TABLE e(\n   prk_e_id INT PRIMARY KEY\n);\n\n" := by
  rfl

/-- Claim C9 (amended): in every run configuration with attribute columns
enabled (`no_columns` off), observing an attribute whose name equals the
reserved primary-key name `prk_<entity>_id` makes the whole DDL pipeline
abort with the naming-collision error, whatever comes before or after it in
the walk — so no output is ever produced. -/
theorem c9_amended :
    ∀ (etc : Int) (dup : Bool) (obs1 obs2 : List Obs) (e d : String),
      xtdDDL etc dup false (obs1 ++ Obs.attr e ("prk_" ++ e ++ "_id") d :: obs2) =
        .error .nameError := by
  intro etc dup obs1 obs2 e d
  unfold xtdDDL runWalk
  rw [foldlM_except_append]
  cases h1 : obs1.foldlM runObs (Database.init etc dup false) with
  | error er =>
    have her : er = .nameError :=
      runWalk_error_name (show runWalk (Database.init etc dup false) obs1 = .error er from h1)
    subst her
    rfl
  | ok db1 =>
    have hnc : db1.no_columns = false :=
      runWalk_config (show runWalk (Database.init etc dup false) obs1 = .ok db1 from h1)
    have hbad : runObs db1 (Obs.attr e ("prk_" ++ e ++ "_id") d) = .error .nameError :=
      db_update_attribute_prk hnc e d
    have hstep : (Obs.attr e ("prk_" ++ e ++ "_id") d :: obs2).foldlM runObs db1 =
        Except.error XTDErr.nameError := by
      rw [foldlM_except_cons, hbad]
    show (match (Obs.attr e ("prk_" ++ e ++ "_id") d :: obs2).foldlM runObs db1 with
      | Except.error er => Except.error er
      | Except.ok db => db.print_ddl) = Except.error XTDErr.nameError
    rw [hstep]

end X2D














